import Mathlib

/-!
Verification of the `mimmydev/code-challenge` repository.

This file shallowly embeds the two source artifacts the claims are about:

* `src/problem1/index.js` — three implementations of "sum of the integers
  1..n" (`sumIteratively`, `sumWithReduce`, `sumWithFormula`);
* `src/problem2/script.js` — the currency-swap calculator: the static
  fallback rate table `MOCK_RATES`, the table builder `buildExchangeRates`,
  input validation `validateInput`, and the conversion pipeline
  `convertToCents` / `getConversionRate` / `performConversion` /
  `convertFromCents`.

JavaScript numbers are modelled as exact rationals (`ℚ`); the special
values `NaN` and `±Infinity`, which `validateInput` has to deal with, are
modelled by the inductive `JSNumber`.  A JavaScript `Map` is modelled as an
insertion-ordered association list with unique keys: `mapSet` updates an
existing key in place and otherwise appends, exactly like `Map.prototype.set`;
`mapGet` is `Map.prototype.get`.  The script's module-level mutable
`exchangeRates` is passed as an explicit parameter; for the purity claim a
state-passing variant over `AppState` is given as well.

Several `Rat` operations are `@[irreducible]` in Batteries; they are made
locally semireducible so that concrete witnesses evaluate by `decide`.
-/

deriving instance DecidableEq for Except

section CodeChallenge

attribute [local semireducible] Rat.mul Rat.add Rat.inv Rat.sub

/-- JavaScript `Math.round`: round half toward positive infinity,
`Math.round x = ⌊x + 0.5⌋` (stated over `Rat.floor` so that the kernel can
evaluate it; `jsRound_eq` below restates it with `Int.floor`). -/
def jsRound (q : ℚ) : ℤ := (q + 1/2).floor

/-- A JavaScript number: either finite (modelled exactly as a rational),
`NaN`, or one of the two infinities. -/
inductive JSNumber where
  | nan : JSNumber
  | posInf : JSNumber
  | negInf : JSNumber
  | fin (q : ℚ) : JSNumber
deriving DecidableEq, Repr

/-- JavaScript `<` on numbers: any comparison with `NaN` is false,
`-Infinity` is below everything else, `+Infinity` above everything else. -/
def jsLt : JSNumber → JSNumber → Bool
  | .nan, _ => false
  | _, .nan => false
  | .negInf, .negInf => false
  | .negInf, _ => true
  | _, .negInf => false
  | .posInf, _ => false
  | _, .posInf => true
  | .fin a, .fin b => decide (a < b)

/-- JavaScript `a > b` on numbers is `b < a` (false whenever `NaN` is involved). -/
def jsGt (a b : JSNumber) : Bool := jsLt b a

/-- Function `validateInput` from `script.js` (lines 168-179): throw on `NaN`
(`typeof value !== 'number' || isNaN(value)`; the domain `JSNumber` already
restricts to numbers), on negative values, and on values above `1000000`;
otherwise return the argument unchanged.  Throwing is modelled by
`Except.error` carrying the message. -/
def validateInput (value : JSNumber) : Except String JSNumber :=
  if value = JSNumber.nan then Except.error "Input must be a valid number"
  else if jsLt value (JSNumber.fin 0) then Except.error "Input must be non-negative"
  else if jsGt value (JSNumber.fin 1000000) then Except.error "Amount too large"
  else Except.ok value

/-- Function `convertToCents` from `script.js` (lines 181-183):
`Math.round(amount * 100)`. -/
def convertToCents (amount : ℚ) : ℤ := jsRound (amount * 100)

/-- Function `convertFromCents` from `script.js` (lines 185-187): `cents / 100`. -/
def convertFromCents (cents : ℤ) : ℚ := (cents : ℚ) / 100

/-- The template literal `` `${fromCurrency}_${toCurrency}` `` used for all
rate-table keys. -/
def rateKey (a b : String) : String := a ++ "_" ++ b

/-- A currency symbol containing no underscore; for such symbols the
`FROM_TO` key encoding is injective.  (Token symbols with an underscore can
make two different pairs collide on one key.) -/
def noUnderscore (s : String) : Prop := ('_' : Char) ∉ s.data

instance (s : String) : Decidable (noUnderscore s) := by
  unfold noUnderscore; infer_instance

/-- JavaScript `Map.prototype.set` on an insertion-ordered association
list: if the key is present, update its value in place (keeping its
position); otherwise append the new entry at the end. -/
def mapSet (m : List (String × ℚ)) (k : String) (v : ℚ) : List (String × ℚ) :=
  match m with
  | [] => [(k, v)]
  | p :: rest => if p.1 = k then (k, v) :: rest else p :: mapSet rest k v

/-- JavaScript `Map.prototype.get` (`none` plays `undefined`). -/
def mapGet (m : List (String × ℚ)) (k : String) : Option ℚ :=
  (m.find? (fun p => p.1 = k)).map (fun p => p.2)

/-- Constant `MOCK_RATES` from `script.js` (lines 2-15), the static fallback
table; the decimal literals are exact. -/
def MOCK_RATES : List (String × ℚ) :=
  [ ("USD_EUR", 85/100), ("USD_GBP", 73/100), ("USD_JPY", 110),
    ("EUR_USD", 118/100), ("EUR_GBP", 86/100), ("EUR_JPY", 12953/100),
    ("GBP_USD", 137/100), ("GBP_EUR", 116/100), ("GBP_JPY", 15075/100),
    ("JPY_USD", 91/10000), ("JPY_EUR", 77/10000), ("JPY_GBP", 66/10000) ]

/-- Function `getConversionRate` from `script.js` (lines 189-198).  The
source reads the module-level `exchangeRates`; here the table is an explicit
parameter.  The source's
`if (!exchangeRates.has(rateKey)) throw ...; return exchangeRates.get(rateKey)`
is rendered as a match on `mapGet`. -/
def getConversionRate (table : List (String × ℚ)) (fromCurrency toCurrency : String) :
    Except String ℚ :=
  if fromCurrency = toCurrency then Except.ok 1
  else
    match mapGet table (rateKey fromCurrency toCurrency) with
    | none => Except.error ("Exchange rate not available for " ++ rateKey fromCurrency toCurrency)
    | some r => Except.ok r

/-- Function `performConversion` from `script.js` (lines 200-204):
`Math.round(amountInCents * rate)` with the rate from `getConversionRate`;
a thrown error propagates. -/
def performConversion (table : List (String × ℚ)) (amountInCents : ℤ)
    (fromCurrency toCurrency : String) : Except String ℤ :=
  (getConversionRate table fromCurrency toCurrency).map
    (fun rate => jsRound ((amountInCents : ℚ) * rate))

/-- The conversion pipeline of `updateOutputAmount` (`script.js` lines
228-230): `convertFromCents (performConversion (convertToCents amount) from to)`. -/
def convertPipeline (table : List (String × ℚ)) (amount : ℚ)
    (fromCurrency toCurrency : String) : Except String ℚ :=
  (performConversion table (convertToCents amount) fromCurrency toCurrency).map convertFromCents

/-- Rounding to two decimal places, the spec's `round(x, 2)`; on the
non-negative values at issue, JavaScript rounding, half-up and
half-away-from-zero all agree. -/
def specRound2 (q : ℚ) : ℚ := (jsRound (q * 100) : ℚ) / 100

/-- Lookup `prices[t]` on the price snapshot, a JavaScript object mapping
token symbols to a price or `null` (`Option ℚ`); a missing key
(`undefined`) and `null` are both `none`. -/
def priceOf (prices : List (String × Option ℚ)) (t : String) : Option ℚ :=
  ((prices.find? (fun p => p.1 = t)).map (fun p => p.2)).join

/-- The token list `Object.keys(prices).filter(t => prices[t] !== null)`
from `buildExchangeRates` (`script.js` line 76). -/
def tokensOf (prices : List (String × Option ℚ)) : List String :=
  (prices.map (fun p => p.1)).filter (fun t => (priceOf prices t).isSome)

/-- Body of the first `forEach` of `buildExchangeRates` (`script.js` lines
79-86): for a truthy price (non-null, non-zero), set `USD_token` to
`1 / price` and `token_USD` to `price`. -/
def usdStep (prices : List (String × Option ℚ)) (rates : List (String × ℚ))
    (token : String) : List (String × ℚ) :=
  match priceOf prices token with
  | some price =>
      if price ≠ 0 then mapSet (mapSet rates (rateKey "USD" token) (1 / price))
        (rateKey token "USD") price
      else rates
  | none => rates

/-- Body of the nested `forEach` of `buildExchangeRates` (`script.js` lines
89-99): for distinct tokens with truthy prices, set `from_to` to
`prices[from] / prices[to]`.  (The source's extra `fromRate !== 0` test is
subsumed by truthiness of `fromRate`.) -/
def crossStep (prices : List (String × Option ℚ)) (rates : List (String × ℚ))
    (fromToken toToken : String) : List (String × ℚ) :=
  if fromToken ≠ toToken then
    match priceOf prices fromToken, priceOf prices toToken with
    | some fromRate, some toRate =>
        if fromRate ≠ 0 ∧ toRate ≠ 0 then
          mapSet rates (rateKey fromToken toToken) (fromRate / toRate)
        else rates
    | _, _ => rates
  else rates

/-- The first `forEach` of `buildExchangeRates` (`script.js` lines 79-86),
run on the fresh `rates = new Map()`. -/
def usdRates (po : List (String × Option ℚ)) : List (String × ℚ) :=
  (tokensOf po).foldl (usdStep po) []

/-- The nested `forEach` of `buildExchangeRates` (`script.js` lines 89-99),
run on the result of the USD-based pass. -/
def crossRates (po : List (String × Option ℚ)) (m : List (String × ℚ)) :
    List (String × ℚ) :=
  (tokensOf po).foldl
    (fun acc fromToken =>
      (tokensOf po).foldl (fun acc2 toToken => crossStep po acc2 fromToken toToken) acc) m

/-- The final `MOCK_RATES.forEach((value, key) => rates.set(key, value))`
merge of `buildExchangeRates` (`script.js` lines 102-104). -/
def mergeStatic (m : List (String × ℚ)) : List (String × ℚ) :=
  MOCK_RATES.foldl (fun acc kv => mapSet acc kv.1 kv.2) m

/-- Function `buildExchangeRates` from `script.js` (lines 70-107): given the
fetched price snapshot (`none` models a falsy/absent snapshot), return the
static table for an absent or empty snapshot, and otherwise build USD-based
rates, then cross-rates, then merge `MOCK_RATES` in last; fall back to
`MOCK_RATES` if the result is somehow empty (`rates.size > 0 ? rates :
MOCK_RATES`). -/
def buildExchangeRates (prices : Option (List (String × Option ℚ))) : List (String × ℚ) :=
  match prices with
  | none => MOCK_RATES
  | some po =>
      if po.isEmpty then MOCK_RATES
      else if 0 < (mergeStatic (crossRates po (usdRates po))).length
      then mergeStatic (crossRates po (usdRates po))
      else MOCK_RATES

/-- The module-level mutable state of `script.js` (lines 29-31): the cached
exchange-rate table and the cached price snapshot. -/
structure AppState where
  exchangeRates : List (String × ℚ)
  pricesCache : Option (List (String × Option ℚ))
deriving DecidableEq

/-- State-passing version of `getConversionRate`: it reads the global
`exchangeRates` and writes nothing. -/
def getConversionRateS (s : AppState) (fromCurrency toCurrency : String) :
    Except String ℚ × AppState :=
  (getConversionRate s.exchangeRates fromCurrency toCurrency, s)

/-- State-passing version of `performConversion`: its only state access is
the read performed by `getConversionRate`. -/
def performConversionS (s : AppState) (amountInCents : ℤ)
    (fromCurrency toCurrency : String) : Except String ℤ × AppState :=
  ((getConversionRateS s fromCurrency toCurrency).1.map
      (fun rate => jsRound ((amountInCents : ℚ) * rate)),
    (getConversionRateS s fromCurrency toCurrency).2)

/-- Function `sumIteratively` from `index.js` (lines 1-7):
`for (i = 1; i <= n; i++) sum += i`. -/
def sumIteratively (n : ℕ) : ℕ :=
  (List.range n).foldl (fun sum i => sum + (i + 1)) 0

/-- Function `sumWithReduce` from `index.js` (lines 9-12):
`Array.from({length: n}, (_, i) => i + 1).reduce((sum, num) => sum + num, 0)`. -/
def sumWithReduce (n : ℕ) : ℕ :=
  ((List.range n).map (fun i => i + 1)).foldl (fun sum num => sum + num) 0

/-- Function `sumWithFormula` from `index.js` (lines 14-16):
`(n * (n + 1)) / 2` with JavaScript real division. -/
def sumWithFormula (n : ℕ) : ℚ := ((n : ℚ) * ((n : ℚ) + 1)) / 2

/-! Helper lemmas -/

theorem jsRound_eq (q : ℚ) : jsRound q = ⌊q + 1/2⌋ := by
  rw [jsRound, Rat.floor_def, Rat.floor_def']

theorem jsRound_intCast (n : ℤ) : jsRound (n : ℚ) = n := by
  rw [jsRound_eq, Int.floor_int_add]
  norm_num

theorem convertToCents_whole (n : ℤ) : convertToCents ((n : ℚ) / 100) = n := by
  rw [convertToCents, div_mul_cancel₀ _ (by norm_num : (100 : ℚ) ≠ 0), jsRound_intCast]

theorem getConversionRate_self (table : List (String × ℚ)) (c : String) :
    getConversionRate table c c = Except.ok 1 := by
  simp [getConversionRate]

theorem getConversionRate_of_mem (table : List (String × ℚ)) (f t : String) (r : ℚ)
    (hft : f ≠ t) (hr : mapGet table (rateKey f t) = some r) :
    getConversionRate table f t = Except.ok r := by
  simp [getConversionRate, hft, hr]

theorem mapGet_mapSet_self (m : List (String × ℚ)) (k : String) (v : ℚ) :
    mapGet (mapSet m k v) k = some v := by
  induction m with
  | nil => simp [mapSet, mapGet]
  | cons p rest ih =>
      by_cases h : p.1 = k
      · simp [mapSet, h, mapGet]
      · simpa [mapSet, h, mapGet] using ih

theorem mapGet_mapSet_ne (m : List (String × ℚ)) (k k' : String) (v : ℚ)
    (h : k' ≠ k) : mapGet (mapSet m k v) k' = mapGet m k' := by
  induction m with
  | nil => simp [mapSet, mapGet, Ne.symm h]
  | cons p rest ih =>
      by_cases hp : p.1 = k
      · simp [mapSet, hp, mapGet, Ne.symm h]
      · by_cases hp' : p.1 = k'
        · simp [mapSet, hp, mapGet, hp', h]
        · simpa [mapSet, hp, mapGet, hp'] using ih

theorem mapSet_ne_nil (m : List (String × ℚ)) (k : String) (v : ℚ) :
    mapSet m k v ≠ [] := by
  cases m with
  | nil => simp [mapSet]
  | cons p rest => by_cases h : p.1 = k <;> simp [mapSet, h]

theorem mapGet_of_mem_nodup : ∀ (m : List (String × ℚ)) (k : String) (v : ℚ),
    (m.map Prod.fst).Nodup → (k, v) ∈ m → mapGet m k = some v := by
  intro m
  induction m with
  | nil => intro k v _ hmem; cases hmem
  | cons p rest ih =>
      intro k v hnd hmem
      rcases List.mem_cons.mp hmem with heq | hmem'
      · rw [← heq]
        simp [mapGet]
      · have hk : k ∈ rest.map Prod.fst := List.mem_map.mpr ⟨(k, v), hmem', rfl⟩
        have hp : p.1 ≠ k := by
          intro hcontra
          rw [List.map_cons, List.nodup_cons] at hnd
          exact hnd.1 (hcontra ▸ hk)
        simpa [mapGet, hp] using ih k v (by
          rw [List.map_cons, List.nodup_cons] at hnd
          exact hnd.2) hmem'

theorem foldl_mapSet_get_of_not_mem :
    ∀ (l : List (String × ℚ)) (m : List (String × ℚ)) (k : String),
      k ∉ l.map Prod.fst →
      mapGet (l.foldl (fun acc kv => mapSet acc kv.1 kv.2) m) k = mapGet m k := by
  intro l
  induction l with
  | nil => intro m k _; rfl
  | cons p rest ih =>
      intro m k h
      rw [List.map_cons, List.mem_cons] at h
      push_neg at h
      rw [List.foldl_cons, ih _ _ h.2, mapGet_mapSet_ne _ _ _ _ h.1]

theorem foldl_mapSet_get_of_mem :
    ∀ (l : List (String × ℚ)) (m : List (String × ℚ)) (k : String) (v : ℚ),
      (l.map Prod.fst).Nodup → (k, v) ∈ l →
      mapGet (l.foldl (fun acc kv => mapSet acc kv.1 kv.2) m) k = some v := by
  intro l
  induction l with
  | nil => intro m k v _ hmem; cases hmem
  | cons p rest ih =>
      intro m k v hnd hmem
      rw [List.map_cons, List.nodup_cons] at hnd
      rw [List.foldl_cons]
      rcases List.mem_cons.mp hmem with heq | hmem'
      · subst heq
        rw [foldl_mapSet_get_of_not_mem rest _ _ hnd.1, mapGet_mapSet_self]
      · exact ih _ k v hnd.2 hmem'

theorem foldl_mapSet_ne_nil :
    ∀ (l : List (String × ℚ)) (m : List (String × ℚ)), m ≠ [] →
      l.foldl (fun acc kv => mapSet acc kv.1 kv.2) m ≠ [] := by
  intro l
  induction l with
  | nil => intro m h; exact h
  | cons p rest ih => intro m _; exact ih _ (mapSet_ne_nil _ _ _)

theorem mergeStatic_ne_nil (m : List (String × ℚ)) : mergeStatic m ≠ [] := by
  rw [mergeStatic, MOCK_RATES, List.foldl_cons]
  exact foldl_mapSet_ne_nil _ _ (mapSet_ne_nil _ _ _)

theorem mapGet_mergeStatic_of_mem (m : List (String × ℚ)) (k : String) (v : ℚ)
    (hmem : (k, v) ∈ MOCK_RATES) : mapGet (mergeStatic m) k = some v :=
  foldl_mapSet_get_of_mem MOCK_RATES m k v (by decide) hmem

theorem mapGet_mergeStatic_of_not_mem (m : List (String × ℚ)) (k : String)
    (h : k ∉ MOCK_RATES.map Prod.fst) : mapGet (mergeStatic m) k = mapGet m k :=
  foldl_mapSet_get_of_not_mem MOCK_RATES m k h

theorem string_data_inj {a b : String} (h : a.data = b.data) : a = b := by
  cases a; cases b; exact congrArg String.mk h

theorem data_append (a b : String) : (a ++ b).data = a.data ++ b.data := by
  cases a; cases b; rfl

theorem rateKey_data (a b : String) : (rateKey a b).data = a.data ++ '_' :: b.data := by
  rw [rateKey, data_append, data_append]
  simp

theorem append_cons_inj {x : Char} :
    ∀ (l1 l2 t1 t2 : List Char), x ∉ l1 → x ∉ l2 →
      l1 ++ x :: t1 = l2 ++ x :: t2 → l1 = l2 ∧ t1 = t2 := by
  intro l1
  induction l1 with
  | nil =>
      intro l2 t1 t2 _ h2 heq
      cases l2 with
      | nil => simpa using heq
      | cons b l2' =>
          simp at heq
          simp [heq.1] at h2
  | cons a l1' ih =>
      intro l2 t1 t2 h1 h2 heq
      cases l2 with
      | nil =>
          simp at heq
          simp [heq.1] at h1
      | cons b l2' =>
          simp at heq
          obtain ⟨hab, hrest⟩ := heq
          have hih := ih l2' t1 t2 (fun hm => h1 (List.mem_cons_of_mem a hm))
            (fun hm => h2 (List.mem_cons_of_mem b hm)) hrest
          exact ⟨by rw [hab, hih.1], hih.2⟩

theorem rateKey_inj {a b c d : String} (ha : noUnderscore a) (hc : noUnderscore c)
    (h : rateKey a b = rateKey c d) : a = c ∧ b = d := by
  have hd := congrArg String.data h
  rw [rateKey_data, rateKey_data] at hd
  obtain ⟨h1, h2⟩ := append_cons_inj _ _ _ _ ha hc hd
  exact ⟨string_data_inj h1, string_data_inj h2⟩

theorem rateKey_ne_left {a c : String} (ha : noUnderscore a) (hc : noUnderscore c)
    (h : a ≠ c) (b d : String) : rateKey a b ≠ rateKey c d :=
  fun he => h (rateKey_inj ha hc he).1

theorem rateKey_ne_right {a c b d : String} (ha : noUnderscore a) (hc : noUnderscore c)
    (h : b ≠ d) : rateKey a b ≠ rateKey c d :=
  fun he => h (rateKey_inj ha hc he).2

theorem noUnderscore_USD : noUnderscore "USD" := by decide

theorem priceOf_mem_tokensOf (po : List (String × Option ℚ)) (A : String) (pa : ℚ)
    (hA : priceOf po A = some pa) : A ∈ tokensOf po := by
  rw [tokensOf]
  apply List.mem_filter.mpr
  refine ⟨?_, by rw [hA]; rfl⟩
  rw [priceOf] at hA
  cases hf : po.find? (fun p => p.1 = A) with
  | none => rw [hf] at hA; simp at hA
  | some pr =>
      have hpr1 : pr.1 = A := by
        have := List.find?_some hf
        simpa using this
      exact hpr1 ▸ List.mem_map.mpr ⟨pr, List.mem_of_find?_eq_some hf, rfl⟩

theorem tokensOf_nodup (po : List (String × Option ℚ))
    (h : (po.map Prod.fst).Nodup) : (tokensOf po).Nodup := h.filter _

theorem mapGet_usdStep_ne (po : List (String × Option ℚ)) (m : List (String × ℚ))
    (tok K : String) (h1 : K ≠ rateKey "USD" tok) (h2 : K ≠ rateKey tok "USD") :
    mapGet (usdStep po m tok) K = mapGet m K := by
  cases hp : priceOf po tok with
  | none => simp only [usdStep, hp]
  | some price =>
      by_cases hz : price ≠ 0
      · simp only [usdStep, hp, if_pos hz]
        rw [mapGet_mapSet_ne _ _ _ _ h2, mapGet_mapSet_ne _ _ _ _ h1]
      · simp only [usdStep, hp, if_neg hz]

theorem mapGet_usdFold_ne (po : List (String × Option ℚ)) :
    ∀ (ts : List String) (m : List (String × ℚ)) (K : String),
      (∀ t ∈ ts, K ≠ rateKey "USD" t ∧ K ≠ rateKey t "USD") →
      mapGet (ts.foldl (usdStep po) m) K = mapGet m K := by
  intro ts
  induction ts with
  | nil => intro m K _; rfl
  | cons t rest ih =>
      intro m K h
      rw [List.foldl_cons, ih _ _ (fun t' ht' => h t' (List.mem_cons_of_mem t ht')),
        mapGet_usdStep_ne po m t K (h t (List.mem_cons_self t rest)).1
          (h t (List.mem_cons_self t rest)).2]

theorem mapGet_usdFold_usd (po : List (String × Option ℚ)) (A : String) (pa : ℚ)
    (hA : priceOf po A = some pa) (ha0 : pa ≠ 0) :
    ∀ (ts : List String) (m : List (String × ℚ)),
      A ∈ ts → ts.Nodup → (∀ t ∈ ts, noUnderscore t) → "USD" ∉ ts →
      mapGet (ts.foldl (usdStep po) m) (rateKey "USD" A) = some (1 / pa)
      ∧ mapGet (ts.foldl (usdStep po) m) (rateKey A "USD") = some pa := by
  intro ts
  induction ts with
  | nil => intro m hmem; cases hmem
  | cons t rest ih =>
      intro m hmem hnd hund husd
      rw [List.nodup_cons] at hnd
      have hAusd : A ≠ "USD" := fun h =>
        husd (h ▸ hmem)
      have hnoUA : noUnderscore A := hund A hmem
      rcases List.mem_cons.mp hmem with heq | hmem'
      · subst heq
        rw [List.foldl_cons]
        have hstep : usdStep po m A
            = mapSet (mapSet m (rateKey "USD" A) (1 / pa)) (rateKey A "USD") pa := by
          simp only [usdStep, hA, if_pos ha0]
        have hrest : ∀ K : String, (∀ t' ∈ rest, K ≠ rateKey "USD" t' ∧ K ≠ rateKey t' "USD") →
            mapGet (rest.foldl (usdStep po) (usdStep po m A)) K
              = mapGet (usdStep po m A) K :=
          fun K hK => mapGet_usdFold_ne po rest _ K hK
        constructor
        · rw [hrest _ (fun t' ht' => ⟨rateKey_ne_right noUnderscore_USD noUnderscore_USD
              (fun h => hnd.1 (by rw [h]; exact ht')),
            rateKey_ne_left noUnderscore_USD (hund t' (List.mem_cons_of_mem A ht'))
              (fun h => husd (by rw [h]; exact List.mem_cons_of_mem A ht')) _ _⟩)]
          rw [hstep, mapGet_mapSet_ne _ _ _ _
            (rateKey_ne_left noUnderscore_USD hnoUA (Ne.symm hAusd) _ _),
            mapGet_mapSet_self]
        · rw [hrest _ (fun t' ht' => ⟨rateKey_ne_left hnoUA noUnderscore_USD hAusd _ _,
            rateKey_ne_left hnoUA (hund t' (List.mem_cons_of_mem A ht'))
              (fun h => hnd.1 (by rw [h]; exact ht')) _ _⟩)]
          rw [hstep, mapGet_mapSet_self]
      · exact ih _ hmem' hnd.2 (fun t' ht' => hund t' (List.mem_cons_of_mem t ht'))
          (fun h => husd (List.mem_cons_of_mem t h))

theorem mapGet_crossStep_ne (po : List (String × Option ℚ)) (m : List (String × ℚ))
    (f t K : String) (h : K ≠ rateKey f t) :
    mapGet (crossStep po m f t) K = mapGet m K := by
  by_cases hft : f ≠ t
  · cases hf : priceOf po f with
    | none => simp only [crossStep, if_pos hft, hf]
    | some fr =>
        cases ht : priceOf po t with
        | none => simp only [crossStep, if_pos hft, hf, ht]
        | some tr =>
            simp only [crossStep, if_pos hft, hf, ht]
            by_cases hc : fr ≠ 0 ∧ tr ≠ 0
            · rw [if_pos hc, mapGet_mapSet_ne _ _ _ _ h]
            · rw [if_neg hc]
  · simp only [crossStep, if_neg hft]

theorem mapGet_crossInner_ne (po : List (String × Option ℚ)) (f : String) :
    ∀ (ts : List String) (m : List (String × ℚ)) (K : String),
      (∀ t ∈ ts, K ≠ rateKey f t) →
      mapGet (ts.foldl (fun acc t => crossStep po acc f t) m) K = mapGet m K := by
  intro ts
  induction ts with
  | nil => intro m K _; rfl
  | cons t rest ih =>
      intro m K h
      rw [List.foldl_cons, ih _ _ (fun t' ht' => h t' (List.mem_cons_of_mem t ht')),
        mapGet_crossStep_ne po m f t K (h t (List.mem_cons_self t rest))]

theorem mapGet_crossFold_ne (po : List (String × Option ℚ)) :
    ∀ (fs ts : List String) (m : List (String × ℚ)) (K : String),
      (∀ f ∈ fs, ∀ t ∈ ts, K ≠ rateKey f t) →
      mapGet (fs.foldl
        (fun acc fromToken =>
          ts.foldl (fun acc2 toToken => crossStep po acc2 fromToken toToken) acc) m) K
        = mapGet m K := by
  intro fs
  induction fs with
  | nil => intro ts m K _; rfl
  | cons f rest ih =>
      intro ts m K h
      rw [List.foldl_cons, ih _ _ _ (fun f' hf' => h f' (List.mem_cons_of_mem f hf')),
        mapGet_crossInner_ne po f ts _ K (h f (List.mem_cons_self f rest))]

theorem mapGet_crossInner_get (po : List (String × Option ℚ)) (A B : String) (pa pb : ℚ)
    (hA : priceOf po A = some pa) (hB : priceOf po B = some pb)
    (ha0 : pa ≠ 0) (hb0 : pb ≠ 0) (hAB : A ≠ B) (hnoUA : noUnderscore A) :
    ∀ (ts : List String) (m : List (String × ℚ)), B ∈ ts → ts.Nodup →
      mapGet (ts.foldl (fun acc t => crossStep po acc A t) m) (rateKey A B)
        = some (pa / pb) := by
  intro ts
  induction ts with
  | nil => intro m hmem; cases hmem
  | cons t rest ih =>
      intro m hmem hnd
      rw [List.nodup_cons] at hnd
      rw [List.foldl_cons]
      rcases List.mem_cons.mp hmem with heq | hmem'
      · subst heq
        have hstep : crossStep po m A B = mapSet m (rateKey A B) (pa / pb) := by
          simp only [crossStep, if_pos hAB, hA, hB]
          rw [if_pos ⟨ha0, hb0⟩]
        rw [mapGet_crossInner_ne po A rest _ _
          (fun t' ht' => rateKey_ne_right hnoUA hnoUA (fun h => hnd.1 (by rw [h]; exact ht'))),
          hstep, mapGet_mapSet_self]
      · exact ih _ hmem' hnd.2

theorem mapGet_crossFold_get (po : List (String × Option ℚ)) (A B : String) (pa pb : ℚ)
    (hA : priceOf po A = some pa) (hB : priceOf po B = some pb)
    (ha0 : pa ≠ 0) (hb0 : pb ≠ 0) (hAB : A ≠ B) (hnoUA : noUnderscore A) :
    ∀ (fs ts : List String) (m : List (String × ℚ)),
      A ∈ fs → fs.Nodup → (∀ f ∈ fs, noUnderscore f) → B ∈ ts → ts.Nodup →
      mapGet (fs.foldl
        (fun acc fromToken =>
          ts.foldl (fun acc2 toToken => crossStep po acc2 fromToken toToken) acc) m)
        (rateKey A B) = some (pa / pb) := by
  intro fs
  induction fs with
  | nil => intro ts m hmem; cases hmem
  | cons f rest ih =>
      intro ts m hmem hnd hund hBts hndts
      rw [List.nodup_cons] at hnd
      rw [List.foldl_cons]
      rcases List.mem_cons.mp hmem with heq | hmem'
      · subst heq
        rw [mapGet_crossFold_ne po rest ts _ _
          (fun f' hf' t' _ => rateKey_ne_left hnoUA
            (hund f' (List.mem_cons_of_mem A hf'))
            (fun h => hnd.1 (by rw [h]; exact hf')) _ _)]
        exact mapGet_crossInner_get po A B pa pb hA hB ha0 hb0 hAB hnoUA ts _ hBts hndts
      · exact ih _ _ hmem' hnd.2 (fun f' hf' => hund f' (List.mem_cons_of_mem f hf'))
          hBts hndts

/-! Claim C1 -/

/-- C1 counterexample: the validated amount `0.005` with the static pair
`USD_JPY` (rate `110`) converts to `1.10`, while `round(0.005 * 110, 2)` is
`0.55` — the difference `0.55` exceeds one minor unit `0.01`. -/
theorem convertPipeline_not_within_cent_cx :
    validateInput (JSNumber.fin (1/200)) = Except.ok (JSNumber.fin (1/200))
    ∧ mapGet MOCK_RATES (rateKey "USD" "JPY") = some 110
    ∧ convertPipeline MOCK_RATES (1/200) "USD" "JPY" = Except.ok (11/10)
    ∧ specRound2 ((1/200) * 110) = 55/100
    ∧ ¬ |(11/10 : ℚ) - 55/100| ≤ 1/100 :=
  ⟨by decide, by decide, by decide, by decide, by decide⟩

/-- C1 (amended): for every validated amount that is a whole number of
cents (`amount = n / 100`) and every pair `(from, to)` of distinct
currencies whose key is in the table with rate `r`, the conversion pipeline
yields exactly `round(amount * r, 2)` — in particular within one minor
unit. -/
theorem convertPipeline_whole_cents_exact (table : List (String × ℚ))
    (f t : String) (r : ℚ) (n : ℤ) (amount : ℚ)
    (hamount : amount = (n : ℚ) / 100)
    (hvalid : validateInput (JSNumber.fin amount) = Except.ok (JSNumber.fin amount))
    (hft : f ≠ t) (hr : mapGet table (rateKey f t) = some r) :
    convertPipeline table amount f t = Except.ok (specRound2 (amount * r)) := by
  subst hamount
  rw [convertPipeline, performConversion, getConversionRate_of_mem table f t r hft hr]
  simp only [Except.map, convertFromCents, specRound2]
  have harg : ((n : ℚ) / 100) * r * 100 = (n : ℚ) * r := by
    field_simp
  rw [convertToCents_whole, harg]

/-- C1 witness: `2.50` USD→EUR at the static rate `0.85` gives exactly
`round(2.50 * 0.85, 2) = 2.13`. -/
theorem convertPipeline_whole_cents_exact_witness :
    ((250 : ℚ)/100 = ((250 : ℤ) : ℚ) / 100
      ∧ validateInput (JSNumber.fin (250/100)) = Except.ok (JSNumber.fin (250/100))
      ∧ "USD" ≠ "EUR"
      ∧ mapGet MOCK_RATES (rateKey "USD" "EUR") = some (85/100))
    ∧ convertPipeline MOCK_RATES (250/100) "USD" "EUR"
        = Except.ok (specRound2 ((250/100) * (85/100))) :=
  ⟨⟨by norm_num, by decide, by decide, by decide⟩,
    convertPipeline_whole_cents_exact MOCK_RATES "USD" "EUR" (85/100) 250 (250/100)
      (by norm_num) (by decide) (by decide) (by decide)⟩

/-! Claim C2 -/

/-- C2 counterexample: the in-range amount `0.005` converted from `USD` to
`USD` comes back as `0.01`, not unchanged — `convertToCents` rounds the
amount to a whole cent even on the identity path. -/
theorem convert_same_currency_cx :
    validateInput (JSNumber.fin (1/200)) = Except.ok (JSNumber.fin (1/200))
    ∧ convertPipeline MOCK_RATES (1/200) "USD" "USD" = Except.ok (1/100)
    ∧ (1/100 : ℚ) ≠ 1/200 :=
  ⟨by decide, by decide, by decide⟩

/-- C2 (amended): for every non-negative amount at most `1000000` that is a
whole number of cents, and every currency `c`, converting from `c` to `c`
returns the amount unchanged, and the rate used is exactly `1` whatever the
table holds (the table is never consulted); for amounts that are not whole
cents the pipeline instead returns the amount rounded to the nearest
cent. -/
theorem convert_same_currency (table : List (String × ℚ)) (c : String)
    (n : ℤ) (amount : ℚ) (hamount : amount = (n : ℚ) / 100)
    (h0 : 0 ≤ amount) (h1 : amount ≤ 1000000) :
    convertPipeline table amount c c = Except.ok amount
    ∧ getConversionRate table c c = Except.ok 1 := by
  refine ⟨?_, getConversionRate_self table c⟩
  subst hamount
  rw [convertPipeline, performConversion, getConversionRate_self]
  simp only [Except.map, convertFromCents]
  rw [convertToCents_whole, mul_one, jsRound_intCast]

/-- C2 witness: `42.37` converted from `BTC` to `BTC` over the static table
(which has no `BTC` pair at all) is returned unchanged with rate `1`. -/
theorem convert_same_currency_witness :
    ((4237 : ℚ)/100 = ((4237 : ℤ) : ℚ) / 100 ∧ (0 : ℚ) ≤ 4237/100 ∧ (4237 : ℚ)/100 ≤ 1000000)
    ∧ (convertPipeline MOCK_RATES (4237/100) "BTC" "BTC" = Except.ok (4237/100)
      ∧ getConversionRate MOCK_RATES "BTC" "BTC" = Except.ok 1) :=
  ⟨⟨by norm_num, by decide, by decide⟩,
    convert_same_currency MOCK_RATES "BTC" 4237 (4237/100) (by norm_num) (by decide) (by decide)⟩

/-! Claim C3 -/

/-- C3: for every table and pair of distinct currencies whose key is absent
from the table, the rate lookup, the cents conversion and the whole
pipeline all fail with the explicit error naming the pair, and never return
a numeric result. -/
theorem convert_missing_pair (table : List (String × ℚ)) (f t : String)
    (cents : ℤ) (amount : ℚ) (hft : f ≠ t)
    (habs : mapGet table (rateKey f t) = none) :
    getConversionRate table f t
      = Except.error ("Exchange rate not available for " ++ rateKey f t)
    ∧ performConversion table cents f t
      = Except.error ("Exchange rate not available for " ++ rateKey f t)
    ∧ convertPipeline table amount f t
      = Except.error ("Exchange rate not available for " ++ rateKey f t) := by
  have h1 : getConversionRate table f t
      = Except.error ("Exchange rate not available for " ++ rateKey f t) := by
    simp [getConversionRate, hft, habs]
  have h2 : ∀ k : ℤ, performConversion table k f t
      = Except.error ("Exchange rate not available for " ++ rateKey f t) := by
    intro k
    rw [performConversion, h1]; rfl
  refine ⟨h1, h2 cents, ?_⟩
  rw [convertPipeline, h2]; rfl

/-- C3 witness: `USD_BTC` is not in the static table, so converting `1.00`
USD→BTC fails with the error naming `USD_BTC`. -/
theorem convert_missing_pair_witness :
    ("USD" ≠ "BTC" ∧ mapGet MOCK_RATES (rateKey "USD" "BTC") = none)
    ∧ (getConversionRate MOCK_RATES "USD" "BTC"
        = Except.error ("Exchange rate not available for " ++ rateKey "USD" "BTC")
      ∧ performConversion MOCK_RATES 100 "USD" "BTC"
        = Except.error ("Exchange rate not available for " ++ rateKey "USD" "BTC")
      ∧ convertPipeline MOCK_RATES 1 "USD" "BTC"
        = Except.error ("Exchange rate not available for " ++ rateKey "USD" "BTC")) :=
  ⟨⟨by decide, by decide⟩,
    convert_missing_pair MOCK_RATES "USD" "BTC" 100 1 (by decide) (by decide)⟩

/-! Claim C4 -/

/-- C4: `validateInput` throws exactly when its argument is not a finite
number, is negative, or exceeds `1000000`, and otherwise returns the
argument unchanged; it rejects `-1`, `NaN` and `1000001` and accepts `0`
and `1000000`. -/
theorem validateInput_spec : ∀ v : JSNumber,
    ((validateInput v = Except.ok v ∨ ∃ e, validateInput v = Except.error e)
      ∧ (validateInput v = Except.ok v
          ↔ ∃ q : ℚ, v = JSNumber.fin q ∧ 0 ≤ q ∧ q ≤ 1000000))
    ∧ validateInput (JSNumber.fin (-1)) = Except.error "Input must be non-negative"
    ∧ validateInput JSNumber.nan = Except.error "Input must be a valid number"
    ∧ validateInput (JSNumber.fin 1000001) = Except.error "Amount too large"
    ∧ validateInput (JSNumber.fin 0) = Except.ok (JSNumber.fin 0)
    ∧ validateInput (JSNumber.fin 1000000) = Except.ok (JSNumber.fin 1000000) := by
  intro v
  refine ⟨⟨?_, ?_⟩, by decide, by decide, by decide, by decide, by decide⟩
  · rw [validateInput]
    split
    · exact Or.inr ⟨_, rfl⟩
    · split
      · exact Or.inr ⟨_, rfl⟩
      · split
        · exact Or.inr ⟨_, rfl⟩
        · exact Or.inl rfl
  · cases v with
    | nan => simp [validateInput]
    | posInf => simp [validateInput, jsLt, jsGt]
    | negInf => simp [validateInput, jsLt, jsGt]
    | fin q =>
        by_cases hq0 : q < 0
        · simp only [validateInput, jsLt, jsGt]
          simp [hq0]
        · by_cases hq1 : (1000000 : ℚ) < q
          · simp only [validateInput, jsLt, jsGt]
            simp [hq0, hq1]
          · simp only [validateInput, jsLt, jsGt]
            simp [hq0, hq1]
            exact ⟨le_of_not_lt hq0, le_of_not_lt hq1⟩

/-! Claim C8 -/

theorem sumIteratively_succ (n : ℕ) :
    sumIteratively (n + 1) = sumIteratively n + (n + 1) := by
  simp [sumIteratively, List.range_succ]

theorem sumIteratively_two_mul (n : ℕ) : 2 * sumIteratively n = n * (n + 1) := by
  induction n with
  | zero => rfl
  | succ k ih =>
      rw [sumIteratively_succ, Nat.mul_add, ih]
      ring

/-- C8: the three sum implementations agree for every non-negative integer
`n`, and all equal `n * (n + 1) / 2` (the formula is stated both with the
exact rational division the JavaScript code performs and with natural
division, which here is exact). -/
theorem sum_implementations_agree : ∀ n : ℕ,
    sumIteratively n = sumWithReduce n
    ∧ (sumIteratively n : ℚ) = sumWithFormula n
    ∧ sumIteratively n = n * (n + 1) / 2 := by
  intro n
  refine ⟨?_, ?_, ?_⟩
  · rw [sumIteratively, sumWithReduce, List.foldl_map]
  · rw [sumWithFormula, eq_div_iff (by norm_num : (2 : ℚ) ≠ 0)]
    have h := sumIteratively_two_mul n
    have : ((2 * sumIteratively n : ℕ) : ℚ) = ((n * (n + 1) : ℕ) : ℚ) := by
      exact_mod_cast congrArg (fun m : ℕ => (m : ℚ)) h
    push_cast at this
    linarith
  · have h := sumIteratively_two_mul n
    omega

/-! Claim C9 -/

/-- C9: `performConversion` is deterministic and effect-free — any two
states agreeing on the rate table give the same result, and the state
(rate table, price snapshot and all) is returned untouched. -/
theorem performConversion_pure (s₁ s₂ : AppState) (cents : ℤ) (f t : String)
    (h : s₁.exchangeRates = s₂.exchangeRates) :
    (performConversionS s₁ cents f t).1 = (performConversionS s₂ cents f t).1
    ∧ (performConversionS s₁ cents f t).2 = s₁
    ∧ (performConversionS s₂ cents f t).2 = s₂ := by
  refine ⟨?_, rfl, rfl⟩
  simp [performConversionS, getConversionRateS, h]

/-- C9 witness: two states sharing the static table but holding different
price snapshots produce the same USD→EUR conversion of 123 cents, and both
are returned unchanged. -/
theorem performConversion_pure_witness :
    (AppState.mk MOCK_RATES none).exchangeRates
      = (AppState.mk MOCK_RATES (some [("BTC", some 50000)])).exchangeRates
    ∧ ((performConversionS ⟨MOCK_RATES, none⟩ 123 "USD" "EUR").1
        = (performConversionS ⟨MOCK_RATES, some [("BTC", some 50000)]⟩ 123 "USD" "EUR").1
      ∧ (performConversionS ⟨MOCK_RATES, none⟩ 123 "USD" "EUR").2
        = AppState.mk MOCK_RATES none
      ∧ (performConversionS ⟨MOCK_RATES, some [("BTC", some 50000)]⟩ 123 "USD" "EUR").2
        = AppState.mk MOCK_RATES (some [("BTC", some 50000)])) :=
  ⟨rfl, performConversion_pure ⟨MOCK_RATES, none⟩ ⟨MOCK_RATES, some [("BTC", some 50000)]⟩
    123 "USD" "EUR" rfl⟩

/-! Claim C10 -/

/-- C10: for every currency code `c` — known to the table or not — the
same-currency check precedes the lookup, so `getConversionRate c c` is `1`
for every table, including the empty one. -/
theorem getConversionRate_same_currency :
    ∀ (table : List (String × ℚ)) (c : String),
      getConversionRate table c c = Except.ok 1
      ∧ getConversionRate [] c c = Except.ok 1 := by
  intro table c
  exact ⟨getConversionRate_self table c, getConversionRate_self [] c⟩

/-! Claim C5 -/

/-- C5: an absent (`none`) snapshot and a snapshot with no keys both make
`buildExchangeRates` return exactly the static fallback table — the same 12
fiat-pair keys (no duplicates) with the same rates, no more and no fewer. -/
theorem buildExchangeRates_empty_snapshot :
    buildExchangeRates none = MOCK_RATES
    ∧ buildExchangeRates (some []) = MOCK_RATES
    ∧ MOCK_RATES.map Prod.fst
        = ["USD_EUR", "USD_GBP", "USD_JPY", "EUR_USD", "EUR_GBP", "EUR_JPY",
           "GBP_USD", "GBP_EUR", "GBP_JPY", "JPY_USD", "JPY_EUR", "JPY_GBP"]
    ∧ (MOCK_RATES.map Prod.fst).Nodup
    ∧ MOCK_RATES.length = 12 :=
  ⟨rfl, rfl, by decide, by decide, by decide⟩

/-! Claim C6 -/

/-- C6: for every snapshot, every entry of the static fiat table keeps its
static rate in the table `buildExchangeRates` returns — the static entries
are merged in last, so they win over any derived entry for the same key. -/
theorem buildExchangeRates_static_wins (prices : Option (List (String × Option ℚ)))
    (k : String) (v : ℚ) (hmem : (k, v) ∈ MOCK_RATES) :
    mapGet (buildExchangeRates prices) k = some v := by
  have hmock : mapGet MOCK_RATES k = some v :=
    mapGet_of_mem_nodup MOCK_RATES k v (by decide) hmem
  match prices with
  | none => exact hmock
  | some po =>
      rw [buildExchangeRates]
      by_cases hpo : po.isEmpty
      · rw [if_pos hpo]; exact hmock
      · have hlen : 0 < (mergeStatic (crossRates po (usdRates po))).length :=
          List.length_pos.mpr (mergeStatic_ne_nil _)
        rw [if_neg hpo, if_pos hlen]
        exact mapGet_mergeStatic_of_mem _ k v hmem

/-- C6 witness: a snapshot quoting a price for `EUR` (which makes the
builder derive its own `USD_EUR` entry of `1/2`) still yields the static
`USD_EUR = 0.85`. -/
theorem buildExchangeRates_static_wins_witness :
    (("USD_EUR", (85/100 : ℚ)) ∈ MOCK_RATES)
    ∧ mapGet (buildExchangeRates (some [("EUR", some 2)])) "USD_EUR" = some (85/100) :=
  ⟨by decide, buildExchangeRates_static_wins (some [("EUR", some 2)]) "USD_EUR" (85/100)
    (by decide)⟩

/-! Claim C7 -/

/-- C7 counterexample: for the non-empty snapshot `{EUR: 2}` the claim
requires `USD_EUR = 1 / price[EUR] = 0.5`, but the static fiat merge runs
last, so the built table maps `USD_EUR` to the static `0.85`. -/
theorem buildExchangeRates_usd_pair_cx :
    priceOf [("EUR", some 2)] "EUR" = some 2
    ∧ mapGet (buildExchangeRates (some [("EUR", some 2)])) (rateKey "USD" "EUR")
        = some (85/100)
    ∧ (85/100 : ℚ) ≠ 1/2 :=
  ⟨by decide, by decide, by decide⟩

/-- C7 (amended): for every non-empty snapshot whose token symbols are free
of underscores and do not include `USD` itself, and every ordered pair of
distinct tokens `A`, `B` with non-null, non-zero prices, the built table
maps `A_B` to `price[A] / price[B]`, `USD_A` to `1 / price[A]` and `A_USD`
to `price[A]` — in each case unless that key is a static fiat key, since
the static merge runs last.  (In particular `buildTable({A: 2, B: 4})`
contains `A_B = 0.5` and `B_A = 2`.) -/
theorem buildExchangeRates_derived_pairs (po : List (String × Option ℚ))
    (A B : String) (pa pb : ℚ)
    (hkeys : (po.map Prod.fst).Nodup)
    (hund : ∀ t ∈ tokensOf po, noUnderscore t)
    (husd : "USD" ∉ tokensOf po)
    (hA : priceOf po A = some pa) (hB : priceOf po B = some pb)
    (ha0 : pa ≠ 0) (hb0 : pb ≠ 0) (hAB : A ≠ B) :
    (rateKey A B ∉ MOCK_RATES.map Prod.fst →
      mapGet (buildExchangeRates (some po)) (rateKey A B) = some (pa / pb))
    ∧ (rateKey "USD" A ∉ MOCK_RATES.map Prod.fst →
      mapGet (buildExchangeRates (some po)) (rateKey "USD" A) = some (1 / pa))
    ∧ (rateKey A "USD" ∉ MOCK_RATES.map Prod.fst →
      mapGet (buildExchangeRates (some po)) (rateKey A "USD") = some pa) := by
  have hAtok : A ∈ tokensOf po := priceOf_mem_tokensOf po A pa hA
  have hBtok : B ∈ tokensOf po := priceOf_mem_tokensOf po B pb hB
  have hnd : (tokensOf po).Nodup := tokensOf_nodup po hkeys
  have hnoUA : noUnderscore A := hund A hAtok
  have hpo : ¬ (po.isEmpty = true) := by
    cases po with
    | nil =>
        rw [priceOf] at hA
        simp at hA
    | cons p rest => simp
  have hlen : 0 < (mergeStatic (crossRates po (usdRates po))).length :=
    List.length_pos.mpr (mergeStatic_ne_nil _)
  have hbuild : buildExchangeRates (some po)
      = mergeStatic (crossRates po (usdRates po)) := by
    rw [buildExchangeRates, if_neg hpo, if_pos hlen]
  refine ⟨?_, ?_, ?_⟩
  · intro hK
    rw [hbuild, mapGet_mergeStatic_of_not_mem _ _ hK, crossRates]
    exact mapGet_crossFold_get po A B pa pb hA hB ha0 hb0 hAB hnoUA
      (tokensOf po) (tokensOf po) (usdRates po) hAtok hnd hund hBtok hnd
  · intro hK
    rw [hbuild, mapGet_mergeStatic_of_not_mem _ _ hK, crossRates,
      mapGet_crossFold_ne po (tokensOf po) (tokensOf po) (usdRates po) _
        (fun f hf t _ => Ne.symm (rateKey_ne_left (hund f hf) noUnderscore_USD
          (fun h => husd (by rw [← h]; exact hf)) _ _)),
      usdRates]
    exact (mapGet_usdFold_usd po A pa hA ha0 (tokensOf po) [] hAtok hnd hund husd).1
  · intro hK
    rw [hbuild, mapGet_mergeStatic_of_not_mem _ _ hK, crossRates,
      mapGet_crossFold_ne po (tokensOf po) (tokensOf po) (usdRates po) _
        (fun f hf t ht => fun he => husd (by
          rw [(rateKey_inj hnoUA (hund f hf) he).2]
          exact ht)),
      usdRates]
    exact (mapGet_usdFold_usd po A pa hA ha0 (tokensOf po) [] hAtok hnd hund husd).2

/-- C7 witness: `buildTable({A: 2, B: 4})` contains `A_B = 2/4 = 0.5`,
`B_A = 4/2 = 2`, `USD_A = 1/2` and `A_USD = 2`. -/
theorem buildExchangeRates_derived_pairs_witness :
    ((([("A", some (2:ℚ)), ("B", some 4)]).map
        (Prod.fst (α := String) (β := Option ℚ))).Nodup
      ∧ (∀ t ∈ tokensOf [("A", some (2:ℚ)), ("B", some 4)], noUnderscore t)
      ∧ "USD" ∉ tokensOf [("A", some (2:ℚ)), ("B", some 4)]
      ∧ priceOf [("A", some (2:ℚ)), ("B", some 4)] "A" = some 2
      ∧ priceOf [("A", some (2:ℚ)), ("B", some 4)] "B" = some 4
      ∧ (2 : ℚ) ≠ 0 ∧ (4 : ℚ) ≠ 0 ∧ "A" ≠ "B")
    ∧ mapGet (buildExchangeRates (some [("A", some 2), ("B", some 4)])) (rateKey "A" "B")
        = some (2/4)
    ∧ mapGet (buildExchangeRates (some [("A", some 2), ("B", some 4)])) (rateKey "B" "A")
        = some (4/2)
    ∧ mapGet (buildExchangeRates (some [("A", some 2), ("B", some 4)])) (rateKey "USD" "A")
        = some (1/2)
    ∧ mapGet (buildExchangeRates (some [("A", some 2), ("B", some 4)])) (rateKey "A" "USD")
        = some 2 :=
  ⟨⟨by decide, by decide, by decide, by decide, by decide, by decide, by decide, by decide⟩,
    (buildExchangeRates_derived_pairs [("A", some 2), ("B", some 4)] "A" "B" 2 4
      (by decide) (by decide) (by decide) (by decide) (by decide) (by decide) (by decide)
      (by decide)).1 (by decide),
    (buildExchangeRates_derived_pairs [("A", some 2), ("B", some 4)] "B" "A" 4 2
      (by decide) (by decide) (by decide) (by decide) (by decide) (by decide) (by decide)
      (by decide)).1 (by decide),
    (buildExchangeRates_derived_pairs [("A", some 2), ("B", some 4)] "A" "B" 2 4
      (by decide) (by decide) (by decide) (by decide) (by decide) (by decide) (by decide)
      (by decide)).2.1 (by decide),
    (buildExchangeRates_derived_pairs [("A", some 2), ("B", some 4)] "A" "B" 2 4
      (by decide) (by decide) (by decide) (by decide) (by decide) (by decide) (by decide)
      (by decide)).2.2 (by decide)⟩

end CodeChallenge
